import Mathlib

/-!
# Liferay Source Formatter CLI: renderer, artifact locator and formatter invoker

A shallow embedding of the three Go packages of the repository

* `cmd/source-format/main.go`  (`displayResults`),
* `internal/nexus/nexus.go`    (`GetJarFileUrl` and its two wrappers),
* `pkg/format/format.go`       (`Options`, `ResultSet`, `Format`, `validateOptions`),

together with the few standard-library functions they call (`fmt.Sprintf`,
`fmt.Printf`, `fmt.Println`, `strings.Join`, `strings.ReplaceAll`, `path.Join`,
`path.Clean`).

Conventions of the embedding.

* A Go `string` is a Lean `String`.  Every byte the modelled code inspects
  (`/`, `.`, `%`, `,`) is ASCII, and an ASCII byte never occurs inside a
  multi-byte UTF-8 sequence, so working on characters instead of bytes does
  not change any result on valid UTF-8 text.
* A Go `int` is a Lean `Int`; the code never does arithmetic on the integers
  it carries (it compares them with `0` and `-1` and prints them), so no
  wrap-around can occur.
* A Go `error` is an `Option String`: `none` is `nil`, `some msg` is an error
  whose text is `msg`.
* A Go slice whose nil-ness the code observes (`Options.Checks`,
  `Options.Filetypes`, `Options.SkipChecks`) is an `Option (List String)`:
  `none` is the nil slice, `some []` the non-nil empty slice.  Slices that are
  only ranged over are plain lists.
* Standard output is the string of everything written to it, in order.
-/

set_option maxRecDepth 100000

/-! ## Package `fmt` -/

namespace fmt

/-- Operand of a formatting verb: the program only ever passes strings and ints. -/
inductive Arg where
  | str (s : String)
  | int (n : Int)

/-- Decimal digit byte `'0' + d`. -/
def digitByte (d : Nat) : Char :=
  Char.ofNat (48 + d)

/-- Digit loop of `fmtInteger` for base 10: `for u >= 10 { i--; next := u / 10;
buf[i] = byte('0' + u - next*10); u = next }; i--; buf[i] = byte('0' + u)`.
The buffer is filled from its end, so each new digit goes in front of `buf`.
The first argument bounds the number of iterations; `u` itself is always
enough, as every iteration divides `u` by ten. -/
def fmtDigits : Nat → Nat → List Char → List Char
  | 0, u, buf => digitByte u :: buf
  | fuel + 1, u, buf =>
    if u ≥ 10 then
      let next := u / 10
      fmtDigits fuel next (digitByte (u - next * 10) :: buf)
    else
      digitByte u :: buf

/-- Verb `%d` applied to an `int` (`fmtInteger`, base 10, no flags): the digits
of the absolute value, with a leading `-` when the value is negative. -/
def fmtInteger (n : Int) : String :=
  let negative := n < 0
  let u := n.natAbs
  let buf := fmtDigits u u []
  if negative then ⟨'-' :: buf⟩ else ⟨buf⟩

/-- Formatting loop of `Sprintf` on the format bytes.  Only what this program
uses is modelled: `%s` with a string operand, `%d` with an int operand, and
literal bytes, which are copied.  (Every format string of the program is a
constant whose verbs match its operands.) -/
def sprintfChars : List Char → List Arg → List Char
  | [], _ => []
  | '%' :: 's' :: format, Arg.str s :: args => s.data ++ sprintfChars format args
  | '%' :: 'd' :: format, Arg.int n :: args => (fmtInteger n).data ++ sprintfChars format args
  | c :: format, args => c :: sprintfChars format args

/-- Implementation of `fmt.Sprintf(format, args...)`. -/
def Sprintf (format : String) (args : List Arg) : String :=
  ⟨sprintfChars format.data args⟩

/-- Text that `fmt.Printf(format, args...)` writes to standard output. -/
def Printf (format : String) (args : List Arg) : String :=
  Sprintf format args

/-- Text that `fmt.Println(s)` writes to standard output for one string
operand: the operand and a newline. -/
def Println (s : String) : String :=
  s ++ "\n"

end fmt

/-! ## Package `strings` -/

namespace strings

/-- Implementation of `strings.Join(elems, sep)`: `""` for no element, the element itself for
one, otherwise the first element followed by `sep` and the next element, for
each further element. -/
def Join (elems : List String) (sep : String) : String :=
  match elems with
  | [] => ""
  | [e] => e
  | e :: rest => rest.foldl (fun b s => b ++ sep ++ s) e

/-- Replacement scan for a non-empty `old`: at an occurrence of `old` the
replacement is written and the scan resumes after the occurrence (the counter
is the number of bytes of the occurrence still to be skipped); any other byte
is copied. -/
def replaceChars (old new : List Char) : Nat → List Char → List Char
  | _, [] => []
  | skip + 1, _ :: cs => replaceChars old new skip cs
  | 0, c :: cs =>
    if old <+: c :: cs then new ++ replaceChars old new (old.length - 1) cs
    else c :: replaceChars old new 0 cs

/-- Implementation of `strings.ReplaceAll(s, old, new)`: every non-overlapping occurrence of
`old` replaced by `new`; for an empty `old`, `new` is inserted before every
character and at the end. -/
def ReplaceAll (s old new : String) : String :=
  if old.data = [] then ⟨new.data ++ s.data.flatMap (fun c => c :: new.data)⟩
  else ⟨replaceChars old.data new.data 0 s.data⟩

end strings

/-! ## Package `path` -/

namespace path

/-- Backtracking of `Clean` on a `..` element: `out.w--` followed by
`for out.w > dotdot && out.index(out.w) != '/' { out.w-- }`.  The buffer is
kept as the list of its bytes `buf[0:w]` with the last byte first, so `w` is
the length of the list and `out.index(out.w)` is the byte just dropped. -/
def backtrack (dotdot : Nat) : List Char → List Char
  | [] => []
  | c :: out => if out.length > dotdot ∧ c ≠ '/' then backtrack dotdot out else out

/-- Main loop `for r < n` of `Clean`.  `rest` is the unread input `path[r:]`,
`out` the output buffer (last byte first), `dotdot` the index where `..` must
stop.  The first argument bounds the number of iterations; every iteration
reads at least one byte, so `n` is always enough. -/
def cleanLoop (rooted : Bool) : Nat → List Char → List Char → Nat → List Char
  | 0, _, out, _ => out
  | fuel + 1, rest, out, dotdot =>
    if rest = [] then out
    else if rest.head? = some '/' then
      -- empty path element
      cleanLoop rooted fuel rest.tail out dotdot
    else if rest.head? = some '.' ∧ (rest.tail = [] ∨ rest.tail.head? = some '/') then
      -- . element
      cleanLoop rooted fuel rest.tail out dotdot
    else if rest.head? = some '.' ∧ rest.tail.head? = some '.' ∧
        (rest.tail.tail = [] ∨ rest.tail.tail.head? = some '/') then
      -- .. element: remove to last /
      if out.length > dotdot then
        cleanLoop rooted fuel rest.tail.tail (backtrack dotdot out) dotdot
      else if ¬ rooted then
        let out := if out.length > 0 then '/' :: out else out
        let out := '.' :: '.' :: out
        cleanLoop rooted fuel rest.tail.tail out out.length
      else
        cleanLoop rooted fuel rest.tail.tail out dotdot
    else
      -- real path element: add slash if needed, copy element
      let out := if (rooted ∧ out.length ≠ 1) ∨ (¬ rooted ∧ out.length ≠ 0) then '/' :: out else out
      cleanLoop rooted fuel (rest.dropWhile (· ≠ '/'))
        ((rest.takeWhile (· ≠ '/')).reverse ++ out) dotdot

/-- Function `Clean` on the bytes of the path. -/
def cleanChars (p : List Char) : List Char :=
  if p = [] then ['.']
  else
    let rooted : Bool := p.head? = some '/'
    let out :=
      if rooted then cleanLoop rooted p.length p.tail ['/'] 1
      else cleanLoop rooted p.length p [] 0
    if out.length = 0 then ['.'] else out.reverse

/-- Implementation of `path.Clean(path)`: the shortest path name equivalent to `path` by purely
lexical processing. -/
def Clean (path : String) : String :=
  ⟨cleanChars path.data⟩

/-- Implementation of `path.Join(elem...)`: the elements from the first non-empty one on,
joined with `/`, then cleaned; `""` when all elements are empty.  (`size` is
only compared with zero, so counting characters instead of bytes gives the
same test.) -/
def Join (elem : List String) : String :=
  let size := (elem.map String.length).sum
  if size = 0 then ""
  else
    let buf := elem.foldl
      (fun (buf : String) e =>
        if buf.length > 0 ∨ e ≠ "" then
          (if buf.length > 0 then buf ++ "/" else buf) ++ e
        else buf) ""
    Clean buf

end path

/-! ## Package `nexus`: the artifact locator -/

namespace nexus

open fmt

/-- Constant `PublicReposUrl`. -/
def PublicReposUrl : String :=
  "https://repository.liferay.com/nexus/content/repositories/liferay-public-releases"

/-- Function `GetJarFileUrl`. -/
def GetJarFileUrl (group artifact version : String) : String :=
  let filename := Sprintf "%s-%s.jar" [.str artifact, .str version]
  Sprintf "%s/%s"
    [.str PublicReposUrl,
     .str (path.Join [strings.ReplaceAll group "." "/", artifact, version, filename])]

/-- Function `GetLiferayJarFileUrl`. -/
def GetLiferayJarFileUrl (artifact version : String) : String :=
  GetJarFileUrl "com.liferay" artifact version

/-- Function `GetLiferayPortalJarFileUrl`. -/
def GetLiferayPortalJarFileUrl (artifact version : String) : String :=
  GetJarFileUrl "com.liferay.portal" artifact version

end nexus

/-! ## Package `format`: data model -/

namespace format

/-- Run configuration (`type Options struct`). -/
structure Options where
  BaseDir : String
  Checks : Option (List String)
  Filetypes : Option (List String)
  SkipChecks : Option (List String)
  FormatGenerated : Bool
  FormatSubrepositories : Bool

/-- One reported violation (`type Violation struct`). -/
structure Violation where
  FileName : String
  Message : String
  LineNumber : Int
  deriving DecidableEq

/-- A check and its violations (`type Result struct`). -/
structure Result where
  Name : String
  Violations : List Violation
  deriving DecidableEq

/-- Decoded output of the checker (`type ResultSet struct`). -/
structure ResultSet where
  Results : List Result
  ModifiedFileNames : List String
  ViolationsCount : Int
  deriving DecidableEq

/-- File contents as read by `ioutil.ReadFile`. -/
abbrev Bytes := List (Fin 256)

/-- What `Format` obtains from the operating system and from the libraries it
calls.  `TempFile` is the outcome of `ioutil.TempFile("", "temp-*.json")`
(the name of the new file); `LookPath` is `safeexec.LookPath`;
`RunThenReadFile exe args name` is the outcome of `ioutil.ReadFile(name)`
after `exec.Command(exe, args...).Run()` has returned (the result of `Run`
itself is discarded by the code); `Unmarshal data v` is `json.Unmarshal(data,
&v)`: the updated value, or the decode error. -/
structure Env where
  TempFile : Except String String
  LookPath : String → Except String String
  RunThenReadFile : String → List String → String → Except String Bytes
  Unmarshal : Bytes → ResultSet → Except String ResultSet

/-- What a call of `Format` does and returns: the subprocess it started, if
any (executable and argument list), and the returned `(*ResultSet, error)`. -/
structure Invocation where
  spawned : Option (String × List String)
  value : Except String ResultSet

/-- Function `validateOptions`; `none` as argument is the nil pointer. -/
def validateOptions (opts : Option Options) : Option String :=
  match opts with
  | none => some "format options cannot be nil"
  | some opts =>
    if opts.BaseDir = "" then some "specify base directory"
    else none

/-- The argument list `cmdArgs` that `Format` builds, from the options, the
jar path and the name of the temporary output file. -/
def cmdArgs (opts : Options) (jarFilePath tempName : String) : List String :=
  let cmdArgs := ["-jar", jarFilePath]
  let cmdArgs := cmdArgs ++ [fmt.Sprintf "source.base.dir=%s" [.str opts.BaseDir]]
  let cmdArgs := cmdArgs ++ [fmt.Sprintf "output.file.name=%s" [.str tempName]]
  let cmdArgs :=
    match opts.Checks with
    | some checks =>
      cmdArgs ++ [fmt.Sprintf "source.check.names=%s" [.str (strings.Join checks ",")]]
    | none => cmdArgs
  let cmdArgs :=
    match opts.Filetypes with
    | some filetypes =>
      cmdArgs ++ [fmt.Sprintf "source.file.extensions=%s" [.str (strings.Join filetypes ",")]]
    | none => cmdArgs
  let cmdArgs :=
    match opts.SkipChecks with
    | some skipChecks =>
      cmdArgs ++ [fmt.Sprintf "skip.check.names=%s" [.str (strings.Join skipChecks ",")]]
    | none => cmdArgs
  cmdArgs

/-- Function `Format`.  The deferred `Close` and `Remove` of the temporary file
do not influence the returned value and are not represented. -/
def Format (env : Env) (opts : Option Options) (jarFilePath : String) : Invocation :=
  match validateOptions opts, opts with
  | some err, _ => ⟨none, .error err⟩
  | none, none => ⟨none, .error "format options cannot be nil"⟩
  | none, some opts =>
    match env.TempFile with
    | .error err => ⟨none, .error err⟩
    | .ok tempName =>
      let cmdArgs := cmdArgs opts jarFilePath tempName
      match env.LookPath "java" with
      | .error err => ⟨none, .error err⟩
      | .ok exe =>
        match env.RunThenReadFile exe cmdArgs tempName with
        | .error err => ⟨some (exe, cmdArgs), .error err⟩
        | .ok data =>
          let output : ResultSet := ⟨[], [], 0⟩
          if data.length > 0 then
            match env.Unmarshal data output with
            | .error err => ⟨some (exe, cmdArgs), .error err⟩
            | .ok output => ⟨some (exe, cmdArgs), .ok output⟩
          else
            ⟨some (exe, cmdArgs), .ok output⟩

end format

/-! ## Package `main`: the result renderer -/

namespace main

open format fmt

/-- Body of the inner loop of `displayResults`: the text printed for one violation. -/
def printViolation (violation : Violation) : String :=
  if violation.LineNumber = -1 then
    Printf "\t%s: %s\n" [.str violation.FileName, .str violation.Message]
  else
    Printf "\t%s: %s (line: %d)\n"
      [.str violation.FileName, .str violation.Message, .int violation.LineNumber]

/-- Loop `for _, check := range resultSet.Results` of `displayResults`, started
with the text printed so far.  The body ends in `return fmt.Errorf(...)`, so
the elements after the first are never visited; with no element the function
falls through to the final `return nil`. -/
def displayResultsLoop : List Result → String → String × Option String
  | [], out => (out, none)
  | check :: _, out =>
    let out := out ++ Printf "Check: %s\n" [.str check.Name]
    let out := check.Violations.foldl (fun out violation => out ++ printViolation violation) out
    (out, some "SF issues found.")

/-- Function `displayResults`: the text written to standard output and the returned error. -/
def displayResults (resultSet : ResultSet) : String × Option String :=
  if resultSet.ViolationsCount = 0 then
    (Println "No violations found 🌱", none)
  else
    displayResultsLoop resultSet.Results
      (Printf "Number of violations: %d\n\n" [.int resultSet.ViolationsCount])

end main

/-! ## Definitions used to state the properties -/

namespace path

/-- A path element that `Clean` keeps as it is: non-empty, without `/`, and
neither `.` nor `..`. -/
def cleanElem (e : List Char) : Prop :=
  e ≠ [] ∧ '/' ∉ e ∧ e ≠ ['.'] ∧ e ≠ ['.', '.']

/-- Relative paths made of kept elements separated by single slashes. -/
inductive CleanPath : List Char → Prop
  | single (e : List Char) (he : cleanElem e) : CleanPath e
  | cons (e q : List Char) (he : cleanElem e) (hq : CleanPath q) : CleanPath (e ++ '/' :: q)

end path

namespace nexus

/-- A segment of a group identifier: non-empty, without `.` and `/`. -/
def groupSegment (s : String) : Prop :=
  s ≠ "" ∧ '.' ∉ s.data ∧ '/' ∉ s.data

/-- An artifact identifier or version that is a single path element: non-empty,
without `/`, and neither `.` nor `..`. -/
def pathElement (s : String) : Prop :=
  s ≠ "" ∧ '/' ∉ s.data ∧ s ≠ "." ∧ s ≠ ".."

end nexus

namespace format

/-- An environment in which every step succeeds, the checker leaves its output
file empty, and any attempt to decode fails. -/
def quietEnv : Env where
  TempFile := .ok "/tmp/temp-1.json"
  LookPath := fun _ => .ok "/usr/bin/java"
  RunThenReadFile := fun _ _ _ => .ok []
  Unmarshal := fun _ _ => .error "unexpected end of JSON input"

end format

namespace main

open format

/-- The line the renderer is expected to print for one violation. -/
def violationLine (v : Violation) : String :=
  if v.LineNumber = -1 then
    "\t" ++ v.FileName ++ ": " ++ v.Message ++ "\n"
  else
    "\t" ++ v.FileName ++ ": " ++ v.Message ++ " (line: " ++ toString v.LineNumber ++ ")\n"

end main

/-! ## The library models on known inputs -/

namespace path

/-- The model of `Clean` on cases of the table in Go's `path` tests. -/
theorem Clean_known_cases :
    Clean "" = "." ∧ Clean "abc" = "abc" ∧ Clean "abc/def" = "abc/def"
    ∧ Clean "/" = "/" ∧ Clean "abc/" = "abc" ∧ Clean "abc//def//ghi" = "abc/def/ghi"
    ∧ Clean "//abc" = "/abc" ∧ Clean "abc/./def" = "abc/def" ∧ Clean "/./abc/def" = "/abc/def"
    ∧ Clean "abc/def/ghi/../jkl" = "abc/def/jkl" ∧ Clean "abc/def/../../.." = ".."
    ∧ Clean "/abc/def/../../.." = "/" ∧ Clean "abc/def/../../../ghi/jkl/../../../mno" = "../../mno"
    ∧ Clean "abc/./../def" = "def" ∧ Clean "abc//./../def" = "def"
    ∧ Clean "abc/../../././../def" = "../../def" := by
  decide

/-- The model of `Join` on cases of the table in Go's `path` tests. -/
theorem Join_known_cases :
    Join [] = "" ∧ Join [""] = "" ∧ Join ["a"] = "a" ∧ Join ["a", "b"] = "a/b"
    ∧ Join ["a", ""] = "a" ∧ Join ["", "b"] = "b" ∧ Join ["/", "a"] = "/a"
    ∧ Join ["/", ""] = "/" ∧ Join ["a/", "b"] = "a/b" ∧ Join ["a/", ""] = "a"
    ∧ Join ["", ""] = "" := by
  decide

end path

namespace strings

/-- The models of `ReplaceAll` and `Join` on known inputs. -/
theorem ReplaceAll_known_cases :
    ReplaceAll "com.liferay.portal" "." "/" = "com/liferay/portal"
    ∧ ReplaceAll "banana" "ana" "o" = "bona" ∧ ReplaceAll "abc" "" "-" = "-a-b-c-"
    ∧ Join ["a", "b", "c"] "," = "a,b,c" ∧ Join [] "," = "" ∧ Join ["a"] "," = "a" := by
  decide

end strings

namespace nexus

/-- The URL that `run` in `main.go` downloads the checker from. -/
theorem GetLiferayJarFileUrl_of_run :
    GetLiferayJarFileUrl "com.liferay.source.formatter.standalone" "1.0.2"
      = "https://repository.liferay.com/nexus/content/repositories/liferay-public-releases"
        ++ "/com/liferay/com.liferay.source.formatter.standalone/1.0.2"
        ++ "/com.liferay.source.formatter.standalone-1.0.2.jar" := by
  decide

end nexus

/-! ## Formatting lemmas -/

namespace fmt

theorem digitByte_eq_digitChar (d : Nat) (h : d < 10) : digitByte d = Nat.digitChar d := by
  interval_cases d <;> rfl

theorem fmtDigits_eq_toDigitsCore (fuel u : Nat) (buf : List Char) (h : u ≤ fuel) :
    fmtDigits fuel u buf = Nat.toDigitsCore 10 (fuel + 1) u buf := by
  induction fuel generalizing u buf with
  | zero =>
    obtain rfl : u = 0 := by omega
    rfl
  | succ fuel ih =>
    rw [fmtDigits, Nat.toDigitsCore]
    by_cases hu : u ≥ 10
    · have h1 : u / 10 ≠ 0 := by omega
      have h2 : u - u / 10 * 10 = u % 10 := by omega
      simp only [hu, h1, if_true, if_false, h2]
      rw [ih _ _ (by omega), digitByte_eq_digitChar _ (by omega)]
    · have h1 : u / 10 = 0 := by omega
      have h2 : u % 10 = u := by omega
      simp only [hu, h1, if_true, if_false, h2]
      rw [digitByte_eq_digitChar _ (by omega)]

/-- The digit loop of `%d` produces the standard decimal numeral. -/
theorem fmtDigits_eq_repr (u : Nat) : (⟨fmtDigits u u []⟩ : String) = Nat.repr u := by
  rw [fmtDigits_eq_toDigitsCore u u [] (Nat.le_refl u)]
  rfl

/-- Verb `%d` renders an `int` as its decimal numeral. -/
theorem fmtInteger_eq_toString (n : Int) : fmtInteger n = toString n := by
  cases n with
  | ofNat m =>
    have h : ¬ (Int.ofNat m < 0) := by simp
    simp only [fmtInteger, h]
    exact fmtDigits_eq_repr m
  | negSucc m =>
    have h : Int.negSucc m < 0 := Int.negSucc_lt_zero m
    simp only [fmtInteger, h]
    show (⟨'-' :: fmtDigits (m + 1) (m + 1) []⟩ : String) = "-" ++ Nat.repr (m + 1)
    rw [← fmtDigits_eq_repr]
    rfl

theorem Sprintf_count (n : Int) :
    Sprintf "Number of violations: %d\n\n" [.int n]
      = "Number of violations: " ++ toString n ++ "\n\n" := by
  rw [← fmtInteger_eq_toString]
  apply String.ext
  simp [Sprintf, sprintfChars]

theorem Sprintf_check (name : String) :
    Sprintf "Check: %s\n" [.str name] = "Check: " ++ name ++ "\n" := by
  apply String.ext
  simp [Sprintf, sprintfChars]

theorem Sprintf_violation (fileName message : String) :
    Sprintf "\t%s: %s\n" [.str fileName, .str message]
      = "\t" ++ fileName ++ ": " ++ message ++ "\n" := by
  apply String.ext
  simp [Sprintf, sprintfChars]

theorem Sprintf_violation_line (fileName message : String) (n : Int) :
    Sprintf "\t%s: %s (line: %d)\n" [.str fileName, .str message, .int n]
      = "\t" ++ fileName ++ ": " ++ message ++ " (line: " ++ toString n ++ ")\n" := by
  rw [← fmtInteger_eq_toString]
  apply String.ext
  simp [Sprintf, sprintfChars]

end fmt

/-! ## The result renderer -/

namespace main

open format fmt

theorem printViolation_eq (v : Violation) : printViolation v = violationLine v := by
  unfold printViolation violationLine Printf
  split
  · exact Sprintf_violation _ _
  · exact Sprintf_violation_line _ _ _

theorem foldl_append_join (l : List String) (init : String) :
    l.foldl (fun r s => r ++ s) init = init ++ String.join l := by
  induction l generalizing init with
  | nil => simp [String.join]
  | cons a l ih =>
    simp only [String.join, List.foldl_cons]
    rw [ih (init ++ a), ih ("" ++ a)]
    simp [String.append_assoc]

theorem foldl_append_eq (f : Violation → String) (vs : List Violation) (out : String) :
    vs.foldl (fun out v => out ++ f v) out = out ++ String.join (vs.map f) := by
  rw [← foldl_append_join, List.foldl_map]

theorem displayResultsLoop_cons (check : Result) (rest : List Result) (out : String) :
    displayResultsLoop (check :: rest) out
      = (out ++ "Check: " ++ check.Name ++ "\n"
          ++ String.join (check.Violations.map violationLine), some "SF issues found.") := by
  have h : printViolation = violationLine := funext printViolation_eq
  simp only [displayResultsLoop, Printf, foldl_append_eq, Sprintf_check, h, String.append_assoc]

end main

namespace main

open format fmt

/-- Claim C1 (evaluation at the failing input): for a result set whose violation
count is 3 and whose list of checks is empty, `displayResults` prints only the
count header and returns `nil`, so no failure is reported although the
violation count is non-zero. -/
theorem displayResults_nonzero_count_no_checks :
    displayResults ⟨[], [], 3⟩ = ("Number of violations: 3\n\n", none) := by
  decide

/-- Claim C2: when the violation count is zero, `displayResults` prints exactly the
success line and returns `nil`, whatever the list of checks holds. -/
theorem displayResults_zero_count (resultSet : ResultSet)
    (h : resultSet.ViolationsCount = 0) :
    displayResults resultSet = ("No violations found 🌱\n", none) := by
  simp only [displayResults, h, if_true, Println]
  rfl

theorem displayResults_zero_count_witness :
    displayResults ⟨[⟨"JavaStylingCheck", [⟨"A.java", "bad", 7⟩]⟩, ⟨"XMLCheck", []⟩], ["A.java"], 0⟩
      = ("No violations found 🌱\n", none) :=
  displayResults_zero_count _ rfl

/-- Claim C3 (evaluation at the failing input): for a result set with two checks,
each with one violation, `displayResults` prints the header, the first check
and its violation, and nothing of the second check. -/
theorem displayResults_two_checks :
    displayResults
        ⟨[⟨"JavaStylingCheck", [⟨"A.java", "bad", 7⟩]⟩, ⟨"XMLCheck", [⟨"b.xml", "worse", -1⟩]⟩], [], 2⟩
      = ("Number of violations: 2\n\nCheck: JavaStylingCheck\n\tA.java: bad (line: 7)\n",
          some "SF issues found.")
    ∧ displayResults
        ⟨[⟨"JavaStylingCheck", [⟨"A.java", "bad", 7⟩]⟩, ⟨"XMLCheck", [⟨"b.xml", "worse", -1⟩]⟩], [], 2⟩
      ≠ ("Number of violations: 2\n\nCheck: JavaStylingCheck\n\tA.java: bad (line: 7)\n"
          ++ "Check: XMLCheck\n\tb.xml: worse\n", some "SF issues found.") := by
  decide

/-- Claim C4: every violation line that `displayResults` prints (the lines below the
check it renders) is tab, file name, `": "`, message and newline when the line
number is `-1`, and tab, file name, `": "`, message, `" (line: N)"` and
newline, with `N` the decimal numeral of the line number, for every other
line number. -/
theorem displayResults_violation_lines (resultSet : ResultSet) (check : Result)
    (rest : List Result) (hcount : resultSet.ViolationsCount ≠ 0)
    (hres : resultSet.Results = check :: rest) :
    (displayResults resultSet).1
      = "Number of violations: " ++ toString resultSet.ViolationsCount ++ "\n\n"
        ++ "Check: " ++ check.Name ++ "\n"
        ++ String.join (check.Violations.map fun v =>
            if v.LineNumber = -1 then
              "\t" ++ v.FileName ++ ": " ++ v.Message ++ "\n"
            else
              "\t" ++ v.FileName ++ ": " ++ v.Message
                ++ " (line: " ++ toString v.LineNumber ++ ")\n") := by
  simp only [displayResults, Printf, hcount, if_false, hres, displayResultsLoop_cons,
    Sprintf_count]
  rfl

theorem displayResults_violation_lines_witness :
    (displayResults ⟨[⟨"C", [⟨"a", "m", -1⟩, ⟨"b", "n", 0⟩, ⟨"c", "o", -2⟩]⟩], [], 3⟩).1
      = "Number of violations: " ++ toString (3 : Int) ++ "\n\n"
        ++ "Check: " ++ "C" ++ "\n"
        ++ String.join ([(⟨"a", "m", -1⟩ : Violation), ⟨"b", "n", 0⟩, ⟨"c", "o", -2⟩].map fun v =>
            if v.LineNumber = -1 then
              "\t" ++ v.FileName ++ ": " ++ v.Message ++ "\n"
            else
              "\t" ++ v.FileName ++ ": " ++ v.Message
                ++ " (line: " ++ toString v.LineNumber ++ ")\n") :=
  displayResults_violation_lines ⟨[⟨"C", [⟨"a", "m", -1⟩, ⟨"b", "n", 0⟩, ⟨"c", "o", -2⟩]⟩], [], 3⟩
    ⟨"C", [⟨"a", "m", -1⟩, ⟨"b", "n", 0⟩, ⟨"c", "o", -2⟩]⟩ [] (by decide) rfl

/-- Claim C9: rendering stops after the first check.  For a non-zero violation count
and a non-empty list of checks, output and returned error are those of the
same result set with the list of checks cut down to its first element: the
count header, the first check with its violation lines, and the error; the
later checks have no influence. -/
theorem displayResults_first_check_only (resultSet : ResultSet)
    (hcount : resultSet.ViolationsCount ≠ 0) (hres : resultSet.Results ≠ []) :
    displayResults resultSet
        = displayResults { resultSet with Results := resultSet.Results.take 1 }
    ∧ ∃ check rest, resultSet.Results = check :: rest
        ∧ displayResults resultSet
          = ("Number of violations: " ++ toString resultSet.ViolationsCount ++ "\n\n"
              ++ "Check: " ++ check.Name ++ "\n"
              ++ String.join (check.Violations.map violationLine),
             some "SF issues found.") := by
  obtain ⟨results, files, count⟩ := resultSet
  cases results with
  | nil => exact absurd rfl hres
  | cons check rest =>
    refine ⟨?_, check, rest, rfl, ?_⟩
    · simp only [displayResults, List.take_succ_cons, List.take_zero, displayResultsLoop_cons]
    · have hc : count ≠ 0 := hcount
      simp only [displayResults, Printf, hc, if_false, displayResultsLoop_cons, Sprintf_count]

theorem displayResults_first_check_only_witness :
    displayResults ⟨[⟨"A", []⟩, ⟨"B", [⟨"b.java", "bad", 3⟩]⟩], [], 1⟩
        = displayResults ⟨[⟨"A", []⟩], [], 1⟩
    ∧ displayResults ⟨[⟨"A", []⟩, ⟨"B", [⟨"b.java", "bad", 3⟩]⟩], [], 1⟩
        = ("Number of violations: 1\n\nCheck: A\n", some "SF issues found.") := by
  have h := displayResults_first_check_only
    ⟨[⟨"A", []⟩, ⟨"B", [⟨"b.java", "bad", 3⟩]⟩], [], 1⟩ (by decide) (by decide)
  exact ⟨h.1, by decide⟩

end main

/-! ## The formatter invoker -/

namespace strings

theorem intercalate_go_eq_foldl (sep acc : String) (l : List String) :
    String.intercalate.go acc sep l = l.foldl (fun b s => b ++ sep ++ s) acc := by
  induction l generalizing acc with
  | nil => rfl
  | cons a l ih => simp only [String.intercalate.go, List.foldl_cons, ih]

/-- Go's `strings.Join` is the usual intercalation. -/
theorem Join_eq_intercalate (elems : List String) (sep : String) :
    Join elems sep = String.intercalate sep elems := by
  cases elems with
  | nil => rfl
  | cons e rest =>
    cases rest with
    | nil => rfl
    | cons e2 rest => simp only [Join, String.intercalate, intercalate_go_eq_foldl]

end strings

namespace format

theorem Sprintf_directive (value : String) :
    fmt.Sprintf "source.base.dir=%s" [.str value] = "source.base.dir=" ++ value
    ∧ fmt.Sprintf "output.file.name=%s" [.str value] = "output.file.name=" ++ value
    ∧ fmt.Sprintf "source.check.names=%s" [.str value] = "source.check.names=" ++ value
    ∧ fmt.Sprintf "source.file.extensions=%s" [.str value] = "source.file.extensions=" ++ value
    ∧ fmt.Sprintf "skip.check.names=%s" [.str value] = "skip.check.names=" ++ value := by
  refine ⟨?_, ?_, ?_, ?_, ?_⟩ <;> apply String.ext <;> simp [fmt.Sprintf, fmt.sprintfChars]

theorem cmdArgs_eq (opts : Options) (jarFilePath tempName : String) :
    cmdArgs opts jarFilePath tempName
      = ["-jar", jarFilePath, "source.base.dir=" ++ opts.BaseDir, "output.file.name=" ++ tempName]
        ++ (opts.Checks.map fun l => "source.check.names=" ++ String.intercalate "," l).toList
        ++ (opts.Filetypes.map fun l => "source.file.extensions=" ++ String.intercalate "," l).toList
        ++ (opts.SkipChecks.map fun l => "skip.check.names=" ++ String.intercalate "," l).toList := by
  obtain ⟨h1, h2, h3, h4, h5⟩ :
      (∀ v, fmt.Sprintf "source.base.dir=%s" [.str v] = "source.base.dir=" ++ v)
      ∧ (∀ v, fmt.Sprintf "output.file.name=%s" [.str v] = "output.file.name=" ++ v)
      ∧ (∀ v, fmt.Sprintf "source.check.names=%s" [.str v] = "source.check.names=" ++ v)
      ∧ (∀ v, fmt.Sprintf "source.file.extensions=%s" [.str v] = "source.file.extensions=" ++ v)
      ∧ (∀ v, fmt.Sprintf "skip.check.names=%s" [.str v] = "skip.check.names=" ++ v) :=
    ⟨fun v => (Sprintf_directive v).1, fun v => (Sprintf_directive v).2.1,
     fun v => (Sprintf_directive v).2.2.1, fun v => (Sprintf_directive v).2.2.2.1,
     fun v => (Sprintf_directive v).2.2.2.2⟩
  obtain ⟨dir, checks, filetypes, skip, g, sr⟩ := opts
  cases checks <;> cases filetypes <;> cases skip <;>
    simp [cmdArgs, h1, h2, h3, h4, h5, strings.Join_eq_intercalate]

theorem Format_spawned (env : Env) (opts : Options) (jarFilePath tempName exe : String)
    (hdir : opts.BaseDir ≠ "") (htemp : env.TempFile = .ok tempName)
    (hexe : env.LookPath "java" = .ok exe) :
    (Format env (some opts) jarFilePath).spawned
      = some (exe, cmdArgs opts jarFilePath tempName) := by
  simp only [Format, validateOptions, hdir, if_false, htemp, hexe]
  cases env.RunThenReadFile exe (cmdArgs opts jarFilePath tempName) tempName with
  | error err => rfl
  | ok data =>
    dsimp only
    split
    · cases env.Unmarshal data ⟨[], [], 0⟩ <;> rfl
    · rfl

theorem Format_value (env : Env) (opts : Options) (jarFilePath tempName exe : String)
    (data : Bytes) (hdir : opts.BaseDir ≠ "") (htemp : env.TempFile = .ok tempName)
    (hexe : env.LookPath "java" = .ok exe)
    (hread : env.RunThenReadFile exe (cmdArgs opts jarFilePath tempName) tempName = .ok data) :
    (Format env (some opts) jarFilePath).value
      = if data.length > 0 then env.Unmarshal data ⟨[], [], 0⟩ else .ok ⟨[], [], 0⟩ := by
  simp only [Format, validateOptions, hdir, if_false, htemp, hexe, hread]
  split
  · cases env.Unmarshal data ⟨[], [], 0⟩ <;> rfl
  · rfl

end format

namespace format

/-- Claim C7 (counterexample): with `Checks` a non-nil empty slice (as `--only=""`
yields) and the two other lists nil, the argument list has a fifth element
`source.check.names=`; it is not the four-element list that the claim gives
for an empty list of checks. -/
theorem cmdArgs_empty_checks_directive :
    cmdArgs ⟨"./", some [], none, none, false, false⟩ "sf.jar" "/tmp/temp-1.json"
      = ["-jar", "sf.jar", "source.base.dir=./", "output.file.name=/tmp/temp-1.json",
         "source.check.names="]
    ∧ (Format quietEnv (some ⟨"./", some [], none, none, false, false⟩) "sf.jar").spawned
      ≠ some ("/usr/bin/java",
          ["-jar", "sf.jar", "source.base.dir=./", "output.file.name=/tmp/temp-1.json"]) := by
  refine ⟨by decide, ?_⟩
  rw [Format_spawned quietEnv _ "sf.jar" "/tmp/temp-1.json" "/usr/bin/java" (by decide) rfl rfl]
  decide

/-- Claim C7 (amended): for options with a non-empty base directory, jar path `J`
and temporary output path `T`, the subprocess that `Format` starts gets
exactly `-jar`, `J`, `source.base.dir=BaseDir`, `output.file.name=T`,
followed in this order by `source.check.names=`, `source.file.extensions=`
and `skip.check.names=`, each with its list joined by commas, where each of
the three is present if and only if the corresponding slice is non-nil (a
non-nil empty slice gives the directive with an empty value). -/
theorem Format_argument_list (env : Env) (opts : Options) (jarFilePath tempName exe : String)
    (hdir : opts.BaseDir ≠ "") (htemp : env.TempFile = .ok tempName)
    (hexe : env.LookPath "java" = .ok exe) :
    (Format env (some opts) jarFilePath).spawned
      = some (exe,
          ["-jar", jarFilePath, "source.base.dir=" ++ opts.BaseDir,
            "output.file.name=" ++ tempName]
          ++ (opts.Checks.map fun l => "source.check.names=" ++ String.intercalate "," l).toList
          ++ (opts.Filetypes.map fun l =>
                "source.file.extensions=" ++ String.intercalate "," l).toList
          ++ (opts.SkipChecks.map fun l =>
                "skip.check.names=" ++ String.intercalate "," l).toList) := by
  rw [Format_spawned env opts jarFilePath tempName exe hdir htemp hexe, cmdArgs_eq]

theorem Format_argument_list_witness :
    (Format quietEnv
        (some ⟨"src", some ["JavaStylingCheck", "XMLCheck"], none, some [], true, false⟩)
        "sf.jar").spawned
      = some ("/usr/bin/java",
          ["-jar", "sf.jar", "source.base.dir=src", "output.file.name=/tmp/temp-1.json",
           "source.check.names=JavaStylingCheck,XMLCheck", "skip.check.names="]) :=
  Format_argument_list quietEnv
    ⟨"src", some ["JavaStylingCheck", "XMLCheck"], none, some [], true, false⟩
    "sf.jar" "/tmp/temp-1.json" "/usr/bin/java" (by decide) rfl rfl

/-- Claim C8: when the output file is read successfully (so options validation, the
temporary file and the lookup of `java` succeeded) and is empty, `Format`
returns, without error, a result set with violation count 0, no checks and
no modified file names, whatever the decoder would do; when the file is not
empty, the result is the decoder applied to its content, decode error
included. -/
theorem Format_empty_output (env : Env) (opts : Options) (jarFilePath tempName exe : String)
    (data : Bytes) (hdir : opts.BaseDir ≠ "") (htemp : env.TempFile = .ok tempName)
    (hexe : env.LookPath "java" = .ok exe)
    (hread : env.RunThenReadFile exe (cmdArgs opts jarFilePath tempName) tempName = .ok data) :
    (data = [] → (Format env (some opts) jarFilePath).value = .ok ⟨[], [], 0⟩)
    ∧ (data ≠ [] →
        (Format env (some opts) jarFilePath).value = env.Unmarshal data ⟨[], [], 0⟩) := by
  rw [Format_value env opts jarFilePath tempName exe data hdir htemp hexe hread]
  constructor
  · intro h
    simp [h]
  · intro h
    have hlen : data.length > 0 := List.length_pos.mpr h
    simp [hlen]

theorem Format_empty_output_witness :
    (Format quietEnv (some ⟨"./", none, none, none, false, false⟩) "sf.jar").value
      = .ok ⟨[], [], 0⟩ :=
  (Format_empty_output quietEnv ⟨"./", none, none, none, false, false⟩
    "sf.jar" "/tmp/temp-1.json" "/usr/bin/java" [] (by decide) rfl rfl rfl).1 rfl

/-- Claim C10: two option values that agree on base directory, checks, file types
and skipped checks give, for the same jar path and temporary output path, the
same argument list, and `Format` does the same with both (same subprocess,
same result): the `FormatGenerated` and `FormatSubrepositories` options have
no effect. -/
theorem Format_ignores_generated_and_subrepositories (env : Env) (o1 o2 : Options)
    (jarFilePath tempName : String)
    (hdir : o1.BaseDir = o2.BaseDir) (hchecks : o1.Checks = o2.Checks)
    (hfiletypes : o1.Filetypes = o2.Filetypes) (hskip : o1.SkipChecks = o2.SkipChecks) :
    cmdArgs o1 jarFilePath tempName = cmdArgs o2 jarFilePath tempName
    ∧ (Format env (some o1) jarFilePath).spawned = (Format env (some o2) jarFilePath).spawned
    ∧ (Format env (some o1) jarFilePath).value = (Format env (some o2) jarFilePath).value := by
  have hargs : ∀ t, cmdArgs o1 jarFilePath t = cmdArgs o2 jarFilePath t := by
    intro t
    simp only [cmdArgs, hdir, hchecks, hfiletypes, hskip]
  have hfmt : Format env (some o1) jarFilePath = Format env (some o2) jarFilePath := by
    simp only [Format, validateOptions, hdir]
    by_cases hb : o2.BaseDir = ""
    · simp only [hb, if_true]
    · simp only [hb, if_false, hargs]
  exact ⟨hargs tempName, by rw [hfmt], by rw [hfmt]⟩

theorem Format_ignores_generated_and_subrepositories_witness :
    cmdArgs ⟨"src", some ["XMLCheck"], none, none, false, false⟩ "sf.jar" "/tmp/temp-1.json"
      = cmdArgs ⟨"src", some ["XMLCheck"], none, none, true, true⟩ "sf.jar" "/tmp/temp-1.json"
    ∧ (Format quietEnv (some ⟨"src", some ["XMLCheck"], none, none, false, false⟩) "sf.jar").spawned
      = (Format quietEnv (some ⟨"src", some ["XMLCheck"], none, none, true, true⟩) "sf.jar").spawned
    ∧ (Format quietEnv (some ⟨"src", some ["XMLCheck"], none, none, false, false⟩) "sf.jar").value
      = (Format quietEnv (some ⟨"src", some ["XMLCheck"], none, none, true, true⟩) "sf.jar").value :=
  Format_ignores_generated_and_subrepositories quietEnv
    ⟨"src", some ["XMLCheck"], none, none, false, false⟩
    ⟨"src", some ["XMLCheck"], none, none, true, true⟩ "sf.jar" "/tmp/temp-1.json" rfl rfl rfl rfl

end format


/-! ## The artifact locator -/

namespace path

theorem CleanPath.ne_nil {p : List Char} (h : CleanPath p) : p ≠ [] := by
  cases h with
  | single e he => exact he.1
  | cons e q he hq => simp

theorem CleanPath.head_ne_slash {p : List Char} (h : CleanPath p) : p.head? ≠ some '/' := by
  have key : ∀ e tl : List Char, cleanElem e → (e ++ tl).head? ≠ some '/' := by
    intro e tl he
    obtain ⟨h1, h2, -, -⟩ := he
    cases e with
    | nil => exact absurd rfl h1
    | cons c t =>
      intro hc
      simp only [List.cons_append, List.head?_cons, Option.some.injEq] at hc
      exact h2 (by simp [hc])
  cases h with
  | single _ he => simpa using key p [] he
  | cons e q he hq => exact key e _ he

theorem CleanPath.append {p q : List Char} (hp : CleanPath p) (hq : CleanPath q) :
    CleanPath (p ++ '/' :: q) := by
  induction hp with
  | single e he => exact CleanPath.cons e q he hq
  | cons e r he _ ih =>
    have h := CleanPath.cons e _ he ih
    simpa [List.append_assoc] using h

theorem takeWhile_elem (e tl : List Char) (he : '/' ∉ e)
    (htl : tl = [] ∨ tl.head? = some '/') :
    (e ++ tl).takeWhile (· ≠ '/') = e ∧ (e ++ tl).dropWhile (· ≠ '/') = tl := by
  induction e with
  | nil =>
    rcases htl with rfl | h
    · simp
    · cases tl with
      | nil => simp
      | cons c t =>
        simp only [List.head?_cons, Option.some.injEq] at h
        subst h
        simp
  | cons c e ih =>
    have hc : c ≠ '/' := fun h => he (by simp [h])
    have he2 : '/' ∉ e := fun h => he (by simp [h])
    obtain ⟨h1, h2⟩ := ih he2
    simp only [List.cons_append, List.takeWhile_cons, List.dropWhile_cons, ne_eq, hc,
      not_false_eq_true, decide_True, if_true, h1, h2, and_self]

theorem cleanLoop_nil (rooted : Bool) (fuel : Nat) (out : List Char) (dotdot : Nat) :
    cleanLoop rooted fuel [] out dotdot = out := by
  cases fuel <;> simp [cleanLoop]

theorem cleanLoop_slash (rooted : Bool) (fuel : Nat) (rest out : List Char) (dotdot : Nat) :
    cleanLoop rooted (fuel + 1) ('/' :: rest) out dotdot = cleanLoop rooted fuel rest out dotdot := by
  simp [cleanLoop]

/-- One iteration of `cleanLoop` on a kept element copies it, after a slash
when the buffer is not empty. -/
theorem cleanLoop_elem (fuel : Nat) (e tl out : List Char) (he : cleanElem e)
    (htl : tl = [] ∨ tl.head? = some '/') :
    cleanLoop false (fuel + 1) (e ++ tl) out 0
      = cleanLoop false fuel tl (e.reverse ++ (if out.length ≠ 0 then '/' :: out else out)) 0 := by
  obtain ⟨h1, h2, h3, h4⟩ := he
  obtain ⟨ht, hd⟩ := takeWhile_elem e tl h2 htl
  cases e with
  | nil => exact absurd rfl h1
  | cons c t =>
    have hc : c ≠ '/' := fun h => h2 (by simp [h])
    have hnot2 : ¬ (c = '.' ∧ (t ++ tl = [] ∨ (t ++ tl).head? = some '/')) := by
      rintro ⟨rfl, h⟩
      cases t with
      | nil => exact h3 rfl
      | cons d t2 =>
        have hd : d ≠ '/' := fun h => h2 (by simp [h])
        simp [hd] at h
    have hnot3 : ¬ (c = '.' ∧ (t ++ tl).head? = some '.' ∧
        ((t ++ tl).tail = [] ∨ (t ++ tl).tail.head? = some '/')) := by
      rintro ⟨rfl, hdot, h⟩
      cases t with
      | nil =>
        rcases htl with rfl | h5
        · simp at hdot
        · simp only [List.nil_append] at hdot
          rw [h5] at hdot
          simp at hdot
      | cons d t2 =>
        simp only [List.cons_append, List.head?_cons, Option.some.injEq] at hdot
        subst hdot
        cases t2 with
        | nil => exact h4 rfl
        | cons x t3 =>
          have hx : x ≠ '/' := fun h => h2 (by simp [h])
          simp [hx] at h
    rw [cleanLoop]
    simp only [List.cons_append, List.head?_cons, List.tail_cons, Option.some.injEq, hc,
      if_false, hnot2, hnot3]
    simp only [← List.cons_append, ht, hd]
    simp

theorem cleanLoop_cleanPath {p : List Char} (hp : CleanPath p) (fuel : Nat) (out : List Char)
    (hfuel : p.length ≤ fuel) :
    cleanLoop false fuel p out 0
      = p.reverse ++ (if out.length ≠ 0 then '/' :: out else out) := by
  induction hp generalizing fuel out with
  | single e he =>
    have hlen : 0 < e.length := List.length_pos.mpr he.1
    obtain ⟨f, rfl⟩ : ∃ f, fuel = f + 1 := ⟨fuel - 1, by omega⟩
    have h := cleanLoop_elem f e [] out he (Or.inl rfl)
    rw [List.append_nil] at h
    rw [h, cleanLoop_nil]
  | cons e q he hq ih =>
    have hlen : 0 < e.length := List.length_pos.mpr he.1
    simp only [List.length_append, List.length_cons] at hfuel
    obtain ⟨f, rfl⟩ : ∃ f, fuel = f + 2 := ⟨fuel - 2, by omega⟩
    rw [cleanLoop_elem (f + 1) e ('/' :: q) out he (Or.inr rfl), cleanLoop_slash,
      ih f _ (by omega)]
    have hne : (e.reverse ++ if out.length ≠ 0 then '/' :: out else out).length ≠ 0 := by
      simp only [List.length_append, List.length_reverse]
      omega
    simp only [hne, if_true, List.reverse_append, List.reverse_cons, List.append_assoc,
      List.singleton_append, ne_eq, not_false_eq_true]
    simp

/-- On a relative path of kept elements separated by single slashes, `Clean`
is the identity. -/
theorem cleanChars_cleanPath {p : List Char} (hp : CleanPath p) : cleanChars p = p := by
  have h1 := hp.ne_nil
  have h2 := hp.head_ne_slash
  have h3 := cleanLoop_cleanPath hp p.length [] (Nat.le_refl _)
  simp only [cleanChars, h1, if_false, h2, decide_False, Bool.false_eq_true, h3]
  simp [h1]

/-- The iteration bound of `cleanLoop` is never reached: any two bounds that
are at least the length of the unread input give the same result. -/
theorem cleanLoop_fuel (rooted : Bool) (f1 f2 : Nat) (rest out : List Char) (dotdot : Nat)
    (h1 : rest.length ≤ f1) (h2 : rest.length ≤ f2) :
    cleanLoop rooted f1 rest out dotdot = cleanLoop rooted f2 rest out dotdot := by
  induction f1 generalizing f2 rest out dotdot with
  | zero =>
    obtain rfl : rest = [] := List.length_eq_zero.mp (by omega)
    rw [cleanLoop_nil, cleanLoop_nil]
  | succ f1 ih =>
    cases f2 with
    | zero =>
      obtain rfl : rest = [] := List.length_eq_zero.mp (by omega)
      rw [cleanLoop_nil, cleanLoop_nil]
    | succ f2 =>
      cases rest with
      | nil => rw [cleanLoop_nil, cleanLoop_nil]
      | cons c t =>
        simp only [List.length_cons] at h1 h2
        have ht : t.length ≤ f1 ∧ t.length ≤ f2 := ⟨by omega, by omega⟩
        have htt : t.tail.length ≤ f1 ∧ t.tail.length ≤ f2 := by
          simp only [List.length_tail]
          omega
        have hdrop : ∀ hc : c ≠ '/',
            ((c :: t).dropWhile (· ≠ '/')).length ≤ f1
            ∧ ((c :: t).dropWhile (· ≠ '/')).length ≤ f2 := by
          intro hc
          have hle := (List.dropWhile_sublist (fun x : Char => decide (x ≠ '/')) (l := t)).length_le
          simp only [List.dropWhile_cons, ne_eq, hc, not_false_eq_true, decide_True, if_true]
          simp only [ne_eq] at hle
          omega
        rw [cleanLoop, cleanLoop, if_neg (List.cons_ne_nil c t), if_neg (List.cons_ne_nil c t)]
        by_cases hs : (c :: t).head? = some '/'
        · rw [if_pos hs, if_pos hs]
          exact ih _ _ _ _ ht.1 ht.2
        · rw [if_neg hs, if_neg hs]
          have hc : c ≠ '/' := fun h => hs (by simp [h])
          by_cases hd : (c :: t).head? = some '.'
              ∧ ((c :: t).tail = [] ∨ (c :: t).tail.head? = some '/')
          · rw [if_pos hd, if_pos hd]
            exact ih _ _ _ _ ht.1 ht.2
          · rw [if_neg hd, if_neg hd]
            by_cases hdd : (c :: t).head? = some '.' ∧ (c :: t).tail.head? = some '.'
                ∧ ((c :: t).tail.tail = [] ∨ (c :: t).tail.tail.head? = some '/')
            · rw [if_pos hdd, if_pos hdd]
              by_cases hw : out.length > dotdot
              · rw [if_pos hw, if_pos hw]
                exact ih _ _ _ _ htt.1 htt.2
              · rw [if_neg hw, if_neg hw]
                by_cases hr : ¬ rooted
                · rw [if_pos hr, if_pos hr]
                  exact ih _ _ _ _ htt.1 htt.2
                · rw [if_neg hr, if_neg hr]
                  exact ih _ _ _ _ htt.1 htt.2
            · rw [if_neg hdd, if_neg hdd]
              exact ih _ _ _ _ (hdrop hc).1 (hdrop hc).2

/-- Four elements of which the first is non-empty are joined with single
slashes before cleaning. -/
theorem Join_four (g a v f : String) (hg : g ≠ "") :
    Join [g, a, v, f] = Clean (g ++ "/" ++ a ++ "/" ++ v ++ "/" ++ f) := by
  have hlen : 0 < g.length := by
    rcases g with ⟨l⟩
    cases l with
    | nil => exact absurd rfl hg
    | cons c l => simp [String.length]
  have hsize : ¬ (g.length + (a.length + (v.length + f.length)) = 0) := by omega
  have h1 : (g ++ "/" ++ a).length > 0 := by
    simp only [String.length_append]
    omega
  have h2 : (g ++ "/" ++ a ++ "/" ++ v).length > 0 := by
    simp only [String.length_append]
    omega
  simp [Join, hsize, hlen, hg, h1, h2]

end path

namespace strings

theorem replaceChars_dot (l : List Char) :
    replaceChars ['.'] ['/'] 0 l = l.map (fun c => if c = '.' then '/' else c) := by
  induction l with
  | nil => rfl
  | cons c l ih =>
    by_cases hc : c = '.'
    · simp [replaceChars, hc, ih]
    · have hc2 : ¬ '.' = c := fun h => hc h.symm
      simp [replaceChars, hc, hc2, ih]

theorem ReplaceAll_dot_data (s : String) :
    (ReplaceAll s "." "/").data = s.data.map (fun c => if c = '.' then '/' else c) := by
  have h : ¬ ("." : String).data = [] := by decide
  simp only [ReplaceAll, h, if_false]
  exact replaceChars_dot s.data

theorem intercalate_go_data (sep acc : String) (l : List String) :
    (String.intercalate.go acc sep l).data
      = acc.data ++ l.flatMap (fun s => sep.data ++ s.data) := by
  induction l generalizing acc with
  | nil => simp [String.intercalate.go]
  | cons a l ih => simp [String.intercalate.go, ih, List.append_assoc]

end strings

namespace nexus

open fmt path

theorem cleanElem_of_pathElement {s : String} (h : pathElement s) : cleanElem s.data := by
  obtain ⟨h1, h2, h3, h4⟩ := h
  refine ⟨fun h => h1 (String.ext h), h2, fun h => h3 (String.ext h), fun h => h4 (String.ext h)⟩

theorem cleanElem_of_groupSegment {s : String} (h : groupSegment s) : cleanElem s.data := by
  obtain ⟨h1, h2, h3⟩ := h
  refine ⟨fun h => h1 (String.ext h), h3, fun h => h2 (by simp [h]), fun h => h2 (by simp [h])⟩

theorem map_dot_segment {s : String} (h : groupSegment s) :
    s.data.map (fun c => if c = '.' then '/' else c) = s.data := by
  have h2 := h.2.1
  generalize s.data = l at h2
  induction l with
  | nil => rfl
  | cons c l ih =>
    have hc : c ≠ '.' := fun h => h2 (by simp [h])
    have hl : '.' ∉ l := fun h => h2 (by simp [h])
    simp [hc, ih hl]

theorem cleanPath_segments (s : String) (rest : List String) (hs : groupSegment s)
    (hrest : ∀ x ∈ rest, groupSegment x) :
    CleanPath ((s.data ++ rest.flatMap (fun x => ".".data ++ x.data)).map
      (fun c => if c = '.' then '/' else c)) := by
  induction rest generalizing s with
  | nil =>
    simp only [List.flatMap_nil, List.append_nil, map_dot_segment hs]
    exact CleanPath.single _ (cleanElem_of_groupSegment hs)
  | cons x rest ih =>
    have hx := hrest x (by simp)
    have h := ih x hx (fun y hy => hrest y (by simp [hy]))
    have h2 := CleanPath.cons _ _ (cleanElem_of_groupSegment hs) h
    simp only [List.flatMap_cons, List.map_append, map_dot_segment hs]
    have hd : List.map (fun c => if c = '.' then '/' else c) ".".data = ['/'] := by decide
    simp only [List.map_append] at h2
    rw [hd]
    simpa using h2

theorem Sprintf_url (base rest : String) :
    Sprintf "%s/%s" [.str base, .str rest] = base ++ "/" ++ rest := by
  apply String.ext
  simp [Sprintf, sprintfChars]

theorem Sprintf_filename (artifact version : String) :
    Sprintf "%s-%s.jar" [.str artifact, .str version] = artifact ++ "-" ++ version ++ ".jar" := by
  apply String.ext
  simp [Sprintf, sprintfChars]

theorem cleanElem_filename (artifact version : String) (ha : '/' ∉ artifact.data)
    (hv : '/' ∉ version.data) : cleanElem (artifact ++ "-" ++ version ++ ".jar").data := by
  have hlen : (artifact ++ "-" ++ version ++ ".jar").data.length ≥ 5 := by
    have h1 : "-".data.length = 1 := by decide
    have h2 : ".jar".data.length = 4 := by decide
    rw [String.data_append, String.data_append, String.data_append, List.length_append,
      List.length_append, List.length_append, h1, h2]
    omega
  refine ⟨?_, ?_, ?_, ?_⟩
  · intro h
    rw [h] at hlen
    simp at hlen
  · simp [ha, hv]
  · intro h
    rw [h] at hlen
    simp at hlen
  · intro h
    rw [h] at hlen
    simp at hlen

/-- Claim C5 (amended): for a group that is the dot-join of non-empty segments
containing neither `.` nor `/`, and an artifact and a version that are
non-empty, contain no `/` and are neither `.` nor `..`, `GetJarFileUrl`
returns base URL, `/`, the group with every `.` replaced by `/`, `/`,
artifact, `/`, version, `/`, artifact, `-`, version, `.jar`. -/
theorem GetJarFileUrl_template (segment : String) (segments : List String)
    (group artifact version : String)
    (hgroup : group = String.intercalate "." (segment :: segments))
    (hsegment : groupSegment segment) (hsegments : ∀ s ∈ segments, groupSegment s)
    (hartifact : pathElement artifact) (hversion : pathElement version) :
    GetJarFileUrl group artifact version
      = PublicReposUrl ++ "/" ++ strings.ReplaceAll group "." "/" ++ "/" ++ artifact ++ "/"
        ++ version ++ "/" ++ artifact ++ "-" ++ version ++ ".jar" := by
  have hG : CleanPath (strings.ReplaceAll group "." "/").data := by
    rw [strings.ReplaceAll_dot_data, hgroup, String.intercalate, strings.intercalate_go_data]
    exact cleanPath_segments segment segments hsegment hsegments
  have hGne : strings.ReplaceAll group "." "/" ≠ "" := by
    intro h
    have := hG.ne_nil
    rw [h] at this
    exact this rfl
  have hfile := cleanElem_filename artifact version hartifact.2.1 hversion.2.1
  have hpath : CleanPath (strings.ReplaceAll group "." "/" ++ "/" ++ artifact ++ "/" ++ version
      ++ "/" ++ (artifact ++ "-" ++ version ++ ".jar")).data := by
    have h1 := CleanPath.cons _ _ (cleanElem_of_pathElement hversion) (CleanPath.single _ hfile)
    have h2 := CleanPath.cons _ _ (cleanElem_of_pathElement hartifact) h1
    have h3 := CleanPath.append hG h2
    have hs : "/".data = ['/'] := rfl
    simp only [String.data_append, hs, List.append_assoc, List.singleton_append]
    simpa [List.append_assoc] using h3
  have hclean := String.ext (cleanChars_cleanPath hpath)
  simp only [GetJarFileUrl, Sprintf_url, Sprintf_filename, Join_four _ _ _ _ hGne]
  show PublicReposUrl ++ "/" ++ Clean _ = _
  rw [show Clean (strings.ReplaceAll group "." "/" ++ "/" ++ artifact ++ "/" ++ version
      ++ "/" ++ (artifact ++ "-" ++ version ++ ".jar")) = _ from hclean]
  simp only [String.append_assoc]

end nexus

namespace nexus

/-- Claim C5 (counterexample): for the group `com.liferay.` (trailing dot), the
returned URL is not the template filled with the inputs: the template has
`com/liferay//a`, the result has `com/liferay/a`, because `path.Join` cleans
the joined path. -/
theorem GetJarFileUrl_trailing_dot :
    GetJarFileUrl "com.liferay." "a" "1"
      = "https://repository.liferay.com/nexus/content/repositories/liferay-public-releases/com/liferay/a/1/a-1.jar"
    ∧ GetJarFileUrl "com.liferay." "a" "1"
      ≠ PublicReposUrl ++ "/" ++ strings.ReplaceAll "com.liferay." "." "/" ++ "/" ++ "a" ++ "/"
        ++ "1" ++ "/" ++ "a" ++ "-" ++ "1" ++ ".jar" := by
  decide

theorem GetJarFileUrl_template_witness :
    GetJarFileUrl "com.liferay" "com.liferay.source.formatter.standalone" "1.0.2"
      = PublicReposUrl ++ "/" ++ strings.ReplaceAll "com.liferay" "." "/" ++ "/"
        ++ "com.liferay.source.formatter.standalone" ++ "/" ++ "1.0.2" ++ "/"
        ++ "com.liferay.source.formatter.standalone" ++ "-" ++ "1.0.2" ++ ".jar" :=
  GetJarFileUrl_template "com" ["liferay"] "com.liferay"
    "com.liferay.source.formatter.standalone" "1.0.2" (by decide)
    ⟨by decide, by decide, by decide⟩
    (by
      intro s hs
      obtain rfl : s = "liferay" := by simpa using hs
      exact ⟨by decide, by decide, by decide⟩)
    ⟨by decide, by decide, by decide, by decide⟩
    ⟨by decide, by decide, by decide, by decide⟩

/-- Claim C6 (counterexample): the URL for group `com.liferay`, artifact
`source.formatter.standalone`, version `1.0.2` does not end in
`/com/liferay/source/formatter/standalone/1.0.2/source.formatter.standalone-1.0.2.jar`. -/
theorem GetJarFileUrl_standalone_not_suffix :
    ¬ ("/com/liferay/source/formatter/standalone/1.0.2/source.formatter.standalone-1.0.2.jar".data
        <:+ (GetJarFileUrl "com.liferay" "source.formatter.standalone" "1.0.2").data) := by
  decide

/-- Claim C6 (amended): the URL for group `com.liferay`, artifact
`source.formatter.standalone`, version `1.0.2`, which is also what
`GetLiferayJarFileUrl` returns for this artifact and version, is the base URL
followed by
`/com/liferay/source.formatter.standalone/1.0.2/source.formatter.standalone-1.0.2.jar`:
only the dots of the group become slashes, the artifact keeps its dots. -/
theorem GetJarFileUrl_standalone :
    GetJarFileUrl "com.liferay" "source.formatter.standalone" "1.0.2"
      = PublicReposUrl
        ++ "/com/liferay/source.formatter.standalone/1.0.2/source.formatter.standalone-1.0.2.jar"
    ∧ GetLiferayJarFileUrl "source.formatter.standalone" "1.0.2"
      = GetJarFileUrl "com.liferay" "source.formatter.standalone" "1.0.2"
    ∧ "/com/liferay/source.formatter.standalone/1.0.2/source.formatter.standalone-1.0.2.jar".data
        <:+ (GetJarFileUrl "com.liferay" "source.formatter.standalone" "1.0.2").data := by
  decide

end nexus
